import Mathlib

/-!
Verification of the fnmusic server (`app/server/app.py`).

The Python source is shallowly embedded: paths are POSIX-style `String`s,
the filesystem and the mutagen tag library are abstract environments
(`FS`, `MutagenEnv`) whose operations return `Option`/`Except` values to
model raised exceptions, and every function of the source that the claims
touch is translated to a total Lean function.
-/

set_option autoImplicit false

namespace Fnmusic

/-! ## Character and string utilities

Embeddings of the Python `str` and `posixpath` operations used by the
source.  Python strings are modelled as Lean `String`s (lists of unicode
characters), matching Python's code-point semantics for the ASCII data
handled here. -/

/-- Python `str.split` with a one-character separator: the groups between
occurrences of `sep` (the empty input gives one empty group, as in
Python's `''.split(sep) == ['']`). -/
def splitOnChar (sep : Char) : List Char → List (List Char)
  | [] => [[]]
  | c :: cs =>
    match splitOnChar sep cs with
    | [] => [[]]
    | g :: gs => if c == sep then [] :: g :: gs else (c :: g) :: gs

/-- Python `'/'.join` over a list of segment strings (the `sep.join` call
inside `posixpath.commonpath`). -/
def joinSlash : List String → String
  | [] => ""
  | [s] => s
  | s :: rest => s ++ "/" ++ joinSlash rest

/-- Python `p[:1] == '/'` on a POSIX path (absolute-path test used by
`posixpath.commonpath` and `posixpath.join`). -/
def isAbs (s : String) : Bool :=
  match s.data with
  | c :: _ => c == '/'
  | [] => false

/-- Python `p[-1:] == '/'` (trailing-separator test of `posixpath.join`). -/
def lastIsSlash (s : String) : Bool :=
  match s.data.getLast? with
  | some c => c == '/'
  | none => false

/-- Test whether the head of `b` equals `a` elementwise. -/
def leadMatch : List Char → List Char → Bool
  | [], _ => true
  | _ :: _, [] => false
  | a :: as, b :: bs => a == b && leadMatch as bs

/-- Character-list substring test; `containsChars sub l` holds iff `sub`
occurs contiguously inside `l`. -/
def containsChars (sub : List Char) : List Char → Bool
  | [] => leadMatch sub []
  | c :: cs => leadMatch sub (c :: cs) || containsChars sub cs

/-- Python `sub in s` substring containment. -/
def containsSub (sub s : String) : Bool := containsChars sub.data s.data

/-- Python `s.endswith(suf)`. -/
def pyEndsWith (s suf : String) : Bool := List.isSuffixOf suf.data s.data

/-- Python `str.lower`, modelled by `Char.toLower` per character (the two
agree on the ASCII file names and extensions the server compares). -/
def pyLower (s : String) : String := String.mk (s.data.map Char.toLower)

/-- Index of the last occurrence of `c` (Python `str.rfind`, with `none`
for the `-1` not-found result). -/
def lastIdx (c : Char) : List Char → Option Nat
  | [] => none
  | x :: xs =>
    match lastIdx c xs with
    | some i => some (i + 1)
    | none => if x == c then some 0 else none

/-- `posixpath.splitext` on the characters of a path: split at the last
dot that comes after the last slash, except that a file name consisting
only of leading dots (such as `.bashrc`) has no extension. -/
def splitextChars (p : List Char) : List Char × List Char :=
  match lastIdx '.' p with
  | none => (p, [])
  | some di =>
    let start :=
      match lastIdx '/' p with
      | none => 0
      | some si => si + 1
    if start ≤ di then
      if ((p.drop start).take (di - start)).any (fun ch => !(ch == '.')) then
        (p.take di, p.drop di)
      else (p, [])
    else (p, [])

/-- `os.path.splitext` lifted to `String`. -/
def splitextStr (s : String) : String × String :=
  let p := splitextChars s.data
  (String.mk p.1, String.mk p.2)

/-- `posixpath.join` for two components, exactly as `os.path.join(root,
name)` behaves: an absolute second component wins, and a separator is
inserted only when needed. -/
def pathJoin (a b : String) : String :=
  if isAbs b then b
  else if a == "" || lastIsSlash a then a ++ b
  else a ++ "/" ++ b

/-- Strict code-point lexicographic order on character lists (Python's
`<` on strings). -/
def charsLt : List Char → List Char → Bool
  | [], [] => false
  | [], _ :: _ => true
  | _ :: _, [] => false
  | a :: as, b :: bs =>
    if a.toNat < b.toNat then true
    else if b.toNat < a.toNat then false
    else charsLt as bs

/-- Python `<` on strings. -/
def pyStrLt (a b : String) : Bool := charsLt a.data b.data

/-- Insert `x` into an already sorted list, before the first element not
strictly below it. -/
def insertSorted (x : String) : List String → List String
  | [] => [x]
  | y :: ys => if pyStrLt y x then y :: insertSorted x ys else x :: y :: ys

/-- Python `list.sort()` on strings: a stable sort by code-point order
(insertion sort computes the same list as Python's stable sort, since
equal strings are identical). -/
def pySort : List String → List String
  | [] => []
  | x :: xs => insertSorted x (pySort xs)

/-- The characters Python `str.strip()` removes at both ends (the ASCII
whitespace among Python's unicode whitespace set; lyric files contain
nothing wider). -/
def isPySpace (c : Char) : Bool :=
  c == ' ' || c == '\t' || c == '\n' || c == '\r' || c == '\x0b' || c == '\x0c'

/-- Python `str.strip()`. -/
def pyStrip (s : String) : String :=
  String.mk (((s.data.dropWhile isPySpace).reverse.dropWhile isPySpace).reverse)

/-- Groups of `str.splitlines` before the final-group fixup, splitting at
the line boundaries that occur in lyric files (LF, CR, CRLF). -/
def pySplitlinesAux : List Char → List (List Char)
  | [] => [[]]
  | '\r' :: '\n' :: rest => [] :: pySplitlinesAux rest
  | '\r' :: rest => [] :: pySplitlinesAux rest
  | '\n' :: rest => [] :: pySplitlinesAux rest
  | c :: rest =>
    match pySplitlinesAux rest with
    | [] => [[c]]
    | g :: gs => (c :: g) :: gs

/-- Python `str.splitlines()`: like the raw grouping but with no entry
for the empty remainder after a final terminator. -/
def pySplitlines (s : String) : List String :=
  let gs := (pySplitlinesAux s.data).map String.mk
  match gs.getLast? with
  | some last => if last == "" then gs.dropLast else gs
  | none => gs

/-! ## Abstract environments

The mutagen library and the filesystem are external collaborators; they
are modelled as records of abstract operations, with `none` (or
`Except.error`) standing for a raised exception. -/

/-- An audio tag object as returned by mutagen (`EasyID3` or
`mutagen.File`).  `truthy` models Python `bool(audio)`; `tags k` models
both `k in audio` (presence) and `audio[k]` (the value list); `strOfKey
k` models `str(audio[k])` for frame objects such as `TPE1`/`TALB`. -/
structure AudioObj where
  truthy : Bool
  tags : String → Option (List String)
  strOfKey : String → String

/-- The mutagen library as an abstract environment.  Each loader returns
`none` when the call raises; `fileEasy`/`file` return `some none` when
`mutagen.File` returns `None` (unrecognized format). -/
structure MutagenEnv where
  easyID3 : String → Option AudioObj
  fileEasy : String → Option (Option AudioObj)
  file : String → Option (Option AudioObj)

/-- The filesystem as seen by the server.  `realpath` returns `none` when
`os.path.realpath` raises; `walk b` is the `os.walk(b)` sequence of
`(root, filenames)` pairs (the `dirs` component is never used by the
source); `read_file` yields the text of a file or the exception
message. -/
structure FS where
  realpath : String → Option String
  path_exists : String → Bool
  walk : String → List (String × List String)
  read_file : String → Except String String

/-! ## Path guard (`realpath_or_empty`, `is_safe_child_path`) -/

/-- `posixpath.commonpath` restricted to two paths, as called by
`is_safe_child_path`; `none` models the `ValueError` raised when one path
is absolute and the other relative.  Python filters empty and `.`
components of the split paths and joins the longest common segment
sequence back with `/`. -/
def dropEmptyCurdir (l : List String) : List String :=
  l.filter (fun c => !(c == "" || c == "."))

/-- Longest common prefix of two segment lists (what the `min`/`max`
comparison loop of `posixpath.commonpath` computes). -/
def commonPrefixL : List String → List String → List String
  | a :: as, b :: bs => if a == b then a :: commonPrefixL as bs else []
  | _, _ => []

/-- `path.split('/')` lifted to `String`. -/
def splitSlash (s : String) : List String :=
  (splitOnChar '/' s.data).map String.mk

/-- `os.path.commonpath([p1, p2])` on POSIX. -/
def commonpath (p1 p2 : String) : Option String :=
  if isAbs p1 != isAbs p2 then none
  else
    let s1 := dropEmptyCurdir (splitSlash p1)
    let s2 := dropEmptyCurdir (splitSlash p2)
    some ((if isAbs p1 then "/" else "") ++ joinSlash (commonPrefixL s1 s2))

/-- `realpath_or_empty` of the source: empty input or a raising
`os.path.realpath` yields the empty string. -/
def realpath_or_empty (fs : FS) (path : String) : String :=
  if path == "" then ""
  else
    match fs.realpath path with
    | some p => p
    | none => ""

/-- `is_safe_child_path` of the source: canonicalize both arguments, fail
closed on empty results, and accept iff the common path equals the
canonical base. -/
def is_safe_child_path (fs : FS) (candidate_path base_dir : String) : Bool :=
  if candidate_path == "" || base_dir == "" then false
  else
    let candidate := realpath_or_empty fs candidate_path
    let base := realpath_or_empty fs base_dir
    if candidate == "" || base == "" then false
    else
      match commonpath candidate base with
      | none => false
      | some common => common == base

/-- The canonical string of an absolute path with the given segments
(`/` for the empty list), the shape `os.path.realpath` outputs. -/
def canonOf (segs : List String) : String := "/" ++ joinSlash segs

/-- A well-formed canonical path segment: nonempty, not `.`, and free of
the separator — every component of an `os.path.realpath` result is of
this shape. -/
def goodSeg (s : String) : Prop :=
  s ≠ "" ∧ s ≠ "." ∧ ∀ c ∈ s.data, c ≠ '/'

/-! ## Metadata reader (`get_metadata`) -/

def unknown_artist : String := "未知艺术家"

def unknown_album : String := "未知专辑"

/-- Python `x or default` for an optional string: `None` and `''` both
fall back. -/
def pyOr (v : Option String) (dflt : String) : String :=
  match v with
  | some s => if s == "" then dflt else s
  | none => dflt

/-- Truthiness of the `audio` variable (`None` and falsy objects). -/
def audioFalsy : Option AudioObj → Bool
  | none => true
  | some a => !a.truthy

/-- The loader cascade of `get_metadata`: `EasyID3` for `.mp3` names with
`mutagen.File(easy=True)` as its `except` handler, `mutagen.File(easy=
True)` otherwise, then a retry with `mutagen.File` when the result is
falsy.  `none` models an exception escaping to the outer handler. -/
def getAudio (env : MutagenEnv) (file_path : String) : Option (Option AudioObj) :=
  let first : Option (Option AudioObj) :=
    if pyEndsWith (pyLower file_path) (".mp3") then
      match env.easyID3 file_path with
      | some a => some (some a)
      | none => env.fileEasy file_path
    else env.fileEasy file_path
  match first with
  | none => none
  | some o => if audioFalsy o then env.file file_path else some o

/-- The artist probing chain of `get_metadata`: `audio['artist'][0]`,
else `str(audio['TPE1'])`, else `str(audio['author'][0])`.  The outer
`some` is absence of an exception; the inner option is the probed value
(`none` when no key is present).  Indexing `[0]` on an empty value list
raises, giving the outer `none`. -/
def probe_artist (a : AudioObj) : Option (Option String) :=
  match a.tags ("artist") with
  | some l =>
    match l.head? with
    | some v => some (some v)
    | none => none
  | none =>
    match a.tags ("TPE1") with
    | some _ => some (some (a.strOfKey ("TPE1")))
    | none =>
      match a.tags ("author") with
      | some l =>
        match l.head? with
        | some v => some (some v)
        | none => none
      | none => some none

/-- The album probing chain of `get_metadata`: `audio['album'][0]`, else
`str(audio['TALB'])`, else `str(audio['wm/albumtitle'][0])`. -/
def probe_album (a : AudioObj) : Option (Option String) :=
  match a.tags ("album") with
  | some l =>
    match l.head? with
    | some v => some (some v)
    | none => none
  | none =>
    match a.tags ("TALB") with
    | some _ => some (some (a.strOfKey ("TALB")))
    | none =>
      match a.tags ("wm/albumtitle") with
      | some l =>
        match l.head? with
        | some v => some (some v)
        | none => none
      | none => some none

/-- `get_metadata` of the source.  The pair of options is the state of
the `artist`/`album` variables when the `try` block exits: an exception
while loading leaves both `None`; an exception during the artist probe
leaves both `None`; an exception during the album probe keeps the artist
already assigned.  The final line is `artist or 未知艺术家, album or
未知专辑`. -/
def get_metadata (env : MutagenEnv) (file_path : String) : String × String :=
  let st : Option String × Option String :=
    match getAudio env file_path with
    | none => (none, none)
    | some none => (none, none)
    | some (some a) =>
      if a.truthy then
        match probe_artist a with
        | none => (none, none)
        | some ar =>
          match probe_album a with
          | none => (ar, none)
          | some al => (ar, al)
      else (none, none)
  (pyOr st.1 unknown_artist, pyOr st.2 unknown_album)

/-- The value-list well-formedness of a real mutagen tag object: a key
reported present by `in` yields at least one value, so the `[0]` indexing
of `get_metadata` cannot raise.  Only the four indexed keys matter. -/
def wellFormedTags (a : AudioObj) : Prop :=
  (∀ l, a.tags ("artist") = some l → l ≠ []) ∧
  (∀ l, a.tags ("author") = some l → l ≠ []) ∧
  (∀ l, a.tags ("album") = some l → l ≠ []) ∧
  (∀ l, a.tags ("wm/albumtitle") = some l → l ≠ [])

/-- The artist value `get_metadata` extracts from a loaded tag object,
read off the probing order of the source (`artist`, `TPE1`, `author`);
it mentions no album key. -/
def artistOf (a : AudioObj) : Option String :=
  match a.tags ("artist") with
  | some l => l.head?
  | none =>
    match a.tags ("TPE1") with
    | some _ => some (a.strOfKey ("TPE1"))
    | none =>
      match a.tags ("author") with
      | some l => l.head?
      | none => none

/-- The album value `get_metadata` extracts from a loaded tag object
(`album`, `TALB`, `wm/albumtitle`); it mentions no artist key. -/
def albumOf (a : AudioObj) : Option String :=
  match a.tags ("album") with
  | some l => l.head?
  | none =>
    match a.tags ("TALB") with
    | some _ => some (a.strOfKey ("TALB"))
    | none =>
      match a.tags ("wm/albumtitle") with
      | some l => l.head?
      | none => none

/-! ## Library scanner (`list_files`) -/

def supported_audio : List String :=
  [".mp3", ".flac", ".wav", ".aac", ".m4a", ".ogg", ".opus", ".ape", ".wma"]

def supported_img : List String := [".jpg", ".png", ".jpeg"]

/-- One per-directory bucket of the `dir_files` dictionary. -/
structure Bucket where
  audio : List String
  img : List String
  lrc : List String

def emptyBucket : Bucket := ⟨[], [], []⟩

/-- The classification step of the walk loop: place a file name into the
audio, image or lyric list of its bucket by lowercased extension;
anything else is dropped. -/
def classifyInto (b : Bucket) (filename : String) : Bucket :=
  let ext := pyLower (splitextStr filename).2
  if supported_audio.contains ext then { b with audio := b.audio ++ [filename] }
  else if supported_img.contains ext then { b with img := b.img ++ [filename] }
  else if ext == ".lrc" then { b with lrc := b.lrc ++ [filename] }
  else b

/-- Lookup in the insertion-ordered dictionary modelling `dir_files`. -/
def dictGet (d : List (String × Bucket)) (k : String) : Option Bucket :=
  (d.find? (fun p => p.1 == k)).map (fun p => p.2)

/-- Replace the value at an existing key of the dictionary. -/
def dictSet (d : List (String × Bucket)) (k : String) (v : Bucket) : List (String × Bucket) :=
  d.map (fun p => if p.1 == k then (p.1, v) else p)

/-- One iteration of the `os.walk` loop of `list_files`: create the
bucket for `root` if absent, then classify every file name into it. -/
def processWalkEntry (d : List (String × Bucket)) (entry : String × List String) :
    List (String × Bucket) :=
  let d1 := if (dictGet d entry.1).isSome then d else d ++ [(entry.1, emptyBucket)]
  dictSet d1 entry.1 (entry.2.foldl classifyInto ((dictGet d1 entry.1).getD emptyBucket))

/-- The whole `dir_files` dictionary built from the walk sequence. -/
def dirFiles (walk : List (String × List String)) : List (String × Bucket) :=
  walk.foldl processWalkEntry []

/-- The keyword test of the default-cover loop: the lowercased image name
contains `cover`, `folder` or `front`. -/
def coverKw (img : String) : Bool :=
  containsSub ("cover") (pyLower img) || containsSub ("folder") (pyLower img) ||
    containsSub ("front") (pyLower img)

/-- Python truthiness of the `default_cover` variable (`None` and the
empty string are falsy). -/
def isFalsyStrOpt : Option String → Bool
  | none => true
  | some s => s == ""

/-- The default-cover selection of `list_files`, applied to the sorted
image list of one bucket: the first keyword match wins, otherwise the
first image, otherwise nothing. -/
def default_cover (root : String) (imgs : List String) : Option String :=
  let dc : Option String :=
    match imgs.find? coverKw with
    | some img => some (pathJoin root img)
    | none => none
  match imgs with
  | [] => dc
  | img0 :: _ => if isFalsyStrOpt dc then some (pathJoin root img0) else dc

/-- Case-insensitive base-name match of a lyric file against an audio
base name. -/
def lrcBaseMatches (base_name lrc : String) : Bool :=
  pyLower (splitextStr lrc).1 == pyLower base_name

/-- The per-track lyric resolution of `list_files`: probe the literal
`<base>.lrc` sibling against the filesystem first, then scan the bucket
lyric list case-insensitively. -/
def resolve_lrc (path_exists : String → Bool) (root base_name : String)
    (lrcs : List String) : Option String :=
  let lrc_path := pathJoin root (base_name ++ ".lrc")
  if path_exists lrc_path then some lrc_path
  else
    match lrcs.find? (lrcBaseMatches base_name) with
    | some lrc => some (pathJoin root lrc)
    | none => none

/-- Case-insensitive base-name match of an image against an audio base
name. -/
def imgBaseMatches (base_name img : String) : Bool :=
  pyLower (splitextStr img).1 == pyLower base_name

/-- The per-track cover resolution of `list_files`: a base-name matching
image overrides the directory default. -/
def resolve_cover (root base_name : String) (imgs : List String)
    (dc : Option String) : Option String :=
  match imgs.find? (imgBaseMatches base_name) with
  | some img => some (pathJoin root img)
  | none => dc

/-- One emitted song record. -/
structure Track where
  name : String
  path : String
  type : String
  parent : String
  cover_path : Option String
  lrc_path : Option String
  artist : String
  album : String

/-- The per-bucket emission loop of `list_files`: sort the audio and
image lists in place, compute the default cover, and emit one track per
audio file in sorted order. -/
def bucket_tracks (env : MutagenEnv) (fs : FS) (root : String) (data : Bucket) :
    List Track :=
  let imgS := pySort data.img
  let dc := default_cover root imgS
  (pySort data.audio).map (fun audio_file =>
    let base_name := (splitextStr audio_file).1
    let audio_path := pathJoin root audio_file
    let meta := get_metadata env audio_path
    { name := audio_file
      path := audio_path
      type := pyLower (splitextStr audio_file).2
      parent := root
      cover_path := resolve_cover root base_name imgS dc
      lrc_path := resolve_lrc fs.path_exists root base_name data.lrc
      artist := meta.1
      album := meta.2 })

/-- `list_files` of the source, with the effective music directory
(`get_music_dir()`, empty when unset) passed explicitly: an empty or
missing root yields the empty song list, otherwise the buckets are
emitted in walk order. -/
def list_files (env : MutagenEnv) (fs : FS) (base_dir : String) : List Track :=
  if base_dir == "" || !fs.path_exists base_dir then []
  else ((dirFiles (fs.walk base_dir)).map (fun p => bucket_tracks env fs p.1 p.2)).flatten

/-! ## Status counting (`/api/status`) -/

/-- The initial `{ext: 0 for ext in supported_audio}` dictionary. -/
def extInit : List (String × Nat) := supported_audio.map (fun e => (e, 0))

/-- `ext_count[ext] += 1` guarded by `ext in ext_count`. -/
def bumpExt (m : List (String × Nat)) (ext : String) : List (String × Nat) :=
  if (m.find? (fun p => p.1 == ext)).isSome then
    m.map (fun p => if p.1 == ext then (p.1, p.2 + 1) else p)
  else m

/-- The inner filename loop of the status walk: count every file and
bump its extension tally. -/
def statusDirStep (acc : Nat × List (String × Nat)) (filename : String) :
    Nat × List (String × Nat) :=
  (acc.1 + 1, bumpExt acc.2 (pyLower (splitextStr filename).2))

/-- The counting walk of `/api/status`: every file of a directory is
counted, and the walk breaks only after a directory pushes the total to
`20000` or more. -/
def status_walk : List (String × List String) → Nat → List (String × Nat) →
    Nat × List (String × Nat)
  | [], total, m => (total, m)
  | (_, files) :: rest, total, m =>
    let step := files.foldl statusDirStep (total, m)
    if 20000 ≤ step.1 then step else status_walk rest step.1 step.2

/-- The `counts` value of `/api/status`: `none` when the effective music
directory is empty or missing, otherwise the pair of
`total_files_scanned` and the per-extension tallies. -/
def status_counts (fs : FS) (base_dir : String) : Option (Nat × List (String × Nat)) :=
  if base_dir != "" && fs.path_exists base_dir then
    some (status_walk (fs.walk base_dir) 0 extInit)
  else none

/-- The largest number of files a single directory of the walk holds. -/
def maxFiles (walk : List (String × List String)) : Nat :=
  walk.foldl (fun acc e => max acc e.2.length) 0

/-! ## Guarded routes (`/api/play`, `/api/favorites`, `/api/lyrics`) -/

/-- Outcome of `/api/play`. -/
inductive PlayResult where
  | notFound
  | forbidden
  | sent (path : String)
deriving DecidableEq

/-- `play_file` of the source: a missing `path` parameter or a
nonexistent file is 404 before the guard runs; a guard failure is 403. -/
def play_file (fs : FS) (path : Option String) (base_dir : String) : PlayResult :=
  let p := path.getD ""
  if p == "" || !fs.path_exists p then .notFound
  else if !is_safe_child_path fs p base_dir then .forbidden
  else .sent p

/-- HTTP method of `/api/favorites`. -/
inductive Method where
  | get
  | post
  | delete

/-- Outcome of `/api/favorites`. -/
inductive FavResult where
  | listing (favorites : List String)
  | badRequest
  | forbidden
  | added (favorites : List String)
  | removed (favorites : List String)
deriving DecidableEq

/-- `manage_favorites` of the source: GET lists, POST/DELETE guard the
supplied path and then insert without duplicates / remove the first
occurrence. -/
def manage_favorites (fs : FS) (method : Method) (body_path : Option String)
    (base_dir : String) (favs : List String) : FavResult :=
  match method with
  | .get => .listing favs
  | .post =>
    let p := body_path.getD ""
    if p == "" then .badRequest
    else if !is_safe_child_path fs p base_dir then .forbidden
    else if favs.contains p then .added favs else .added (favs ++ [p])
  | .delete =>
    let p := body_path.getD ""
    if p == "" then .badRequest
    else if !is_safe_child_path fs p base_dir then .forbidden
    else if favs.contains p then .removed (favs.erase p) else .removed favs

/-- Outcome of `/api/lyrics`. -/
inductive LyricsResult where
  | badRequest
  | forbidden
  | lyrics (lines : List String)
  | readError (msg : String)
deriving DecidableEq

/-- `get_lyrics` of the source: guard the song path, derive the sibling
`.lrc` path, and return its nonblank lines (or the exception message, or
an empty list when no lyric file exists). -/
def get_lyrics (fs : FS) (song_path : Option String) (base_dir : String) : LyricsResult :=
  let sp := song_path.getD ""
  if sp == "" then .badRequest
  else if !is_safe_child_path fs sp base_dir then .forbidden
  else
    let lrc_path := (splitextStr sp).1 ++ ".lrc"
    if fs.path_exists lrc_path then
      match fs.read_file lrc_path with
      | .error e => .readError e
      | .ok content => .lyrics ((pySplitlines content).filter (fun line => !(pyStrip line == "")))
    else .lyrics []

/-! ## Concrete environments used to instantiate the theorems -/

/-- A filesystem on which every path is already canonical (realpath is
the identity) and every path exists. -/
def litFS : FS where
  realpath := fun p => some p
  path_exists := fun _ => true
  walk := fun _ => []
  read_file := fun _ => .error ""

/-- A filesystem whose realpath always raises. -/
def noneFS : FS where
  realpath := fun _ => none
  path_exists := fun _ => true
  walk := fun _ => []
  read_file := fun _ => .error ""

/-- A filesystem holding exactly one file, `/music/a.mp3`, with identity
canonicalization. -/
def oneFileFS : FS where
  realpath := fun p => some p
  path_exists := fun p => p == "/music/a.mp3"
  walk := fun _ => []
  read_file := fun _ => .error ""

/-- A tag object carrying an artist and an album under the primary easy
keys. -/
def sampleTags : AudioObj where
  truthy := true
  tags := fun k =>
    if k == "artist" then some ["Artist A"]
    else if k == "album" then some ["Album B"] else none
  strOfKey := fun _ => ""

/-- A mutagen environment whose loaders all return `sampleTags`. -/
def sampleEnv : MutagenEnv where
  easyID3 := fun _ => some sampleTags
  fileEasy := fun _ => some (some sampleTags)
  file := fun _ => some (some sampleTags)

/-- A filesystem whose walk yields a single directory of 20001 audio
files. -/
def bigFS : FS where
  realpath := fun p => some p
  path_exists := fun _ => true
  walk := fun _ => [("/m", List.replicate 20001 ("a.mp3"))]
  read_file := fun _ => .error ""

/-- A filesystem whose walk yields a single empty directory. -/
def smallFS : FS where
  realpath := fun p => some p
  path_exists := fun _ => true
  walk := fun _ => [("/m", [])]
  read_file := fun _ => .error ""

instance (s : String) : Decidable (goodSeg s) := by
  unfold goodSeg; infer_instance

/-! ## Lemmas about the path-splitting primitives -/

theorem splitOnChar_ne_nil (sep : Char) (l : List Char) : splitOnChar sep l ≠ [] := by
  cases l with
  | nil => simp [splitOnChar]
  | cons c cs =>
    unfold splitOnChar
    cases h : splitOnChar sep cs with
    | nil => simp
    | cons g gs => by_cases hc : c == sep <;> simp [hc]

theorem splitOnChar_sep_cons (sep : Char) (l : List Char) :
    splitOnChar sep (sep :: l) = [] :: splitOnChar sep l := by
  cases h : splitOnChar sep l with
  | nil => exact absurd h (splitOnChar_ne_nil sep l)
  | cons g gs =>
    conv_lhs => rw [splitOnChar]
    rw [h]
    simp

theorem splitOnChar_no_sep (sep : Char) (l : List Char) (h : ∀ c ∈ l, ¬ c = sep) :
    splitOnChar sep l = [l] := by
  induction l with
  | nil => rfl
  | cons c cs ih =>
    have hc : (c == sep) = false := by
      simpa using h c (by simp)
    unfold splitOnChar
    rw [ih (fun x hx => h x (by simp [hx]))]
    simp [hc]

theorem splitOnChar_append (sep : Char) (seg rest : List Char) (h : ∀ c ∈ seg, ¬ c = sep) :
    splitOnChar sep (seg ++ sep :: rest) = seg :: splitOnChar sep rest := by
  induction seg with
  | nil => simpa using splitOnChar_sep_cons sep rest
  | cons c cs ih =>
    have hc : (c == sep) = false := by
      simpa using h c (by simp)
    have ih2 := ih (fun x hx => h x (by simp [hx]))
    simp only [List.cons_append]
    conv_lhs => rw [splitOnChar]
    rw [ih2]
    simp [hc]

theorem joinSlash_cons_cons (s t : String) (rest : List String) :
    joinSlash (s :: t :: rest) = s ++ "/" ++ joinSlash (t :: rest) := rfl

theorem slash_append_data (s : String) : (("/" : String) ++ s).data = '/' :: s.data := by
  rw [String.data_append]; rfl

theorem splitSlash_joinSlash (segs : List String) (hne : segs ≠ [])
    (h : ∀ s ∈ segs, ∀ c ∈ s.data, ¬ c = '/') :
    splitSlash (joinSlash segs) = segs := by
  induction segs with
  | nil => exact absurd rfl hne
  | cons s rest ih =>
    cases rest with
    | nil =>
      unfold splitSlash
      rw [show joinSlash [s] = s from rfl,
        splitOnChar_no_sep '/' s.data (h s (by simp))]
      rfl
    | cons t ts =>
      have hjoin : (joinSlash (s :: t :: ts)).data = s.data ++ '/' :: (joinSlash (t :: ts)).data := by
        rw [joinSlash_cons_cons]
        simp [String.data_append]
      have ihr := ih (by simp) (fun x hx c hc => h x (by simp [hx]) c hc)
      unfold splitSlash at ihr ⊢
      rw [hjoin, splitOnChar_append '/' s.data _ (h s (by simp)), List.map_cons, ihr]

theorem roundtrip_canonOf (segs : List String) (h : ∀ s ∈ segs, goodSeg s) :
    dropEmptyCurdir (splitSlash (canonOf segs)) = segs := by
  cases segs with
  | nil => decide
  | cons s rest =>
    have hnoslash : ∀ x ∈ s :: rest, ∀ c ∈ x.data, ¬ c = '/' :=
      fun x hx c hc => (h x hx).2.2 c hc
    have hdata : (canonOf (s :: rest)).data = '/' :: (joinSlash (s :: rest)).data := by
      unfold canonOf
      rw [slash_append_data]
    have hsplit : splitSlash (canonOf (s :: rest)) = "" :: splitSlash (joinSlash (s :: rest)) := by
      unfold splitSlash
      rw [hdata, splitOnChar_sep_cons, List.map_cons]
    rw [hsplit, splitSlash_joinSlash (s :: rest) (by simp) hnoslash]
    rw [show dropEmptyCurdir ("" :: s :: rest) = dropEmptyCurdir (s :: rest) from rfl]
    exact List.filter_eq_self.mpr (fun x hx => by
      have hx1 := (h x hx).1
      have hx2 := (h x hx).2.1
      simp [beq_eq_false_iff_ne.mpr hx1, beq_eq_false_iff_ne.mpr hx2])

theorem canonOf_inj {a b : List String} (ha : ∀ s ∈ a, goodSeg s) (hb : ∀ s ∈ b, goodSeg s)
    (h : canonOf a = canonOf b) : a = b := by
  have h2 := roundtrip_canonOf a ha
  rw [h, roundtrip_canonOf b hb] at h2
  exact h2.symm

theorem commonPrefixL_append (b t : List String) : commonPrefixL (b ++ t) b = b := by
  induction b with
  | nil => cases t <;> rfl
  | cons x bs ih => simp [commonPrefixL, ih]

theorem commonPrefixL_eq_iff (c b : List String) :
    commonPrefixL c b = b ↔ ∃ t, c = b ++ t := by
  constructor
  · intro h
    induction b generalizing c with
    | nil => exact ⟨c, rfl⟩
    | cons x bs ih =>
      cases c with
      | nil => simp [commonPrefixL] at h
      | cons y cs =>
        by_cases hxy : (y == x) = true
        · have hy : y = x := by simpa using hxy
          subst hy
          rw [show commonPrefixL (y :: cs) (y :: bs) =
              y :: commonPrefixL cs bs from by simp [commonPrefixL]] at h
          have h2 : commonPrefixL cs bs = bs := by
            simpa using h
          obtain ⟨t, ht⟩ := ih cs h2
          exact ⟨t, by simp [ht]⟩
        · rw [show commonPrefixL (y :: cs) (x :: bs) = [] from by
            simp [commonPrefixL, hxy]] at h
          exact absurd h.symm (by simp)
  · rintro ⟨t, rfl⟩
    exact commonPrefixL_append b t

theorem mem_commonPrefixL {x : String} : ∀ {c b : List String}, x ∈ commonPrefixL c b → x ∈ c := by
  intro c
  induction c with
  | nil => intro b hx; simp [commonPrefixL] at hx
  | cons y cs ih =>
    intro b hx
    cases b with
    | nil => simp [commonPrefixL] at hx
    | cons z bs =>
      by_cases h : (y == z) = true
      · rw [show commonPrefixL (y :: cs) (z :: bs) =
            y :: commonPrefixL cs bs from by simp [commonPrefixL, h]] at hx
        rcases List.mem_cons.mp hx with h1 | h2
        · simp [h1]
        · exact List.mem_cons_of_mem _ (ih h2)
      · rw [show commonPrefixL (y :: cs) (z :: bs) = [] from by
          simp [commonPrefixL, h]] at hx
        simp at hx

theorem isAbs_canonOf (segs : List String) : isAbs (canonOf segs) = true := by
  unfold isAbs canonOf
  rw [slash_append_data]
  rfl

theorem canonOf_ne_empty (segs : List String) : canonOf segs ≠ "" := by
  intro h
  have h2 : (canonOf segs).data = [] := by rw [h]
  unfold canonOf at h2
  rw [slash_append_data] at h2
  exact absurd h2 (by simp)

/-- Evaluation of `commonpath` on two canonical absolute paths: it is the
canonical path of the longest common segment sequence. -/
theorem commonpath_canonOf (csegs bsegs : List String)
    (hcg : ∀ s ∈ csegs, goodSeg s) (hbg : ∀ s ∈ bsegs, goodSeg s) :
    commonpath (canonOf csegs) (canonOf bsegs) =
      some (canonOf (commonPrefixL csegs bsegs)) := by
  unfold commonpath
  rw [isAbs_canonOf, isAbs_canonOf]
  rw [roundtrip_canonOf csegs hcg, roundtrip_canonOf bsegs hbg]
  rfl

/-- The containment iff at the heart of C1: on canonical inputs the guard
accepts exactly when the base segments are a whole-segment prefix of the
candidate segments. -/
theorem is_safe_child_path_canon (fs : FS) (cand base : String)
    (csegs bsegs : List String)
    (hcand : cand ≠ "") (hbase : base ≠ "")
    (hc : fs.realpath cand = some (canonOf csegs))
    (hb : fs.realpath base = some (canonOf bsegs))
    (hcg : ∀ s ∈ csegs, goodSeg s) (hbg : ∀ s ∈ bsegs, goodSeg s) :
    (is_safe_child_path fs cand base = true ↔ ∃ t, csegs = bsegs ++ t) := by
  unfold is_safe_child_path realpath_or_empty
  rw [beq_eq_false_iff_ne.mpr hcand, beq_eq_false_iff_ne.mpr hbase, hc, hb]
  simp only [Bool.false_or, Bool.or_self, if_false, Bool.false_eq_true, ite_false]
  rw [beq_eq_false_iff_ne.mpr (canonOf_ne_empty csegs),
    beq_eq_false_iff_ne.mpr (canonOf_ne_empty bsegs)]
  simp only [Bool.false_or, Bool.or_self, Bool.false_eq_true, ite_false]
  rw [commonpath_canonOf csegs bsegs hcg hbg]
  constructor
  · intro h
    have heq : canonOf (commonPrefixL csegs bsegs) = canonOf bsegs := by
      simpa using h
    have hgood : ∀ s ∈ commonPrefixL csegs bsegs, goodSeg s :=
      fun s hs => hcg s (mem_commonPrefixL hs)
    exact (commonPrefixL_eq_iff csegs bsegs).mp (canonOf_inj hgood hbg heq)
  · intro h
    have h2 : commonPrefixL csegs bsegs = bsegs := (commonPrefixL_eq_iff csegs bsegs).mpr h
    simp [h2]

/-! ## Claim theorems -/

/-- C1: `is_safe_child_path(candidate, base)` returns true iff the
canonicalized candidate equals the canonicalized base directory or lies
beneath it, where containment is decided on whole path segments (the
base segments are a prefix of the candidate segments), never on raw
string prefixes; in particular `isSafeChild("/music/sub/a.mp3",
"/music")` is true, `isSafeChild("/music2/a.mp3", "/music")` is false,
and `isSafeChild("", "/music")` is false. -/
theorem C1_containment_iff :
    (∀ (fs : FS) (cand base : String) (csegs bsegs : List String),
        cand ≠ "" → base ≠ "" →
        fs.realpath cand = some (canonOf csegs) →
        fs.realpath base = some (canonOf bsegs) →
        (∀ s ∈ csegs, goodSeg s) → (∀ s ∈ bsegs, goodSeg s) →
        (is_safe_child_path fs cand base = true ↔ ∃ t, csegs = bsegs ++ t)) ∧
    is_safe_child_path litFS ("/music/sub/a.mp3") ("/music") = true ∧
    is_safe_child_path litFS ("/music2/a.mp3") ("/music") = false ∧
    (∀ fs : FS, is_safe_child_path fs ("") ("/music") = false) := by
  refine ⟨?_, by decide, by decide, ?_⟩
  · intro fs cand base csegs bsegs hcand hbase hc hb hcg hbg
    exact is_safe_child_path_canon fs cand base csegs bsegs hcand hbase hc hb hcg hbg
  · intro fs
    rfl

/-- Witness for C1 at concrete canonical inputs: the general iff applied
to `/music/sub/a.mp3` under base `/music`. -/
theorem C1_containment_iff_witness :
    is_safe_child_path litFS ("/music/sub/a.mp3") ("/music") = true :=
  (C1_containment_iff.1 litFS ("/music/sub/a.mp3") ("/music")
      (["music", "sub", "a.mp3"]) (["music"])
      (by decide) (by decide) (by decide) (by decide) (by decide) (by decide)).mpr
    ⟨["sub", "a.mp3"], rfl⟩

/-- C2: `is_safe_child_path` is total (it always returns a boolean, never
raising), and a canonicalization failure of either input — modelled by
`os.path.realpath` raising — makes it return false. -/
theorem C2_fail_closed :
    (∀ (fs : FS) (cand base : String), fs.realpath cand = none →
        is_safe_child_path fs cand base = false) ∧
    (∀ (fs : FS) (cand base : String), fs.realpath base = none →
        is_safe_child_path fs cand base = false) ∧
    (∀ (fs : FS) (cand base : String),
        is_safe_child_path fs cand base = true ∨ is_safe_child_path fs cand base = false) := by
  refine ⟨?_, ?_, fun fs cand base => ?_⟩
  · intro fs cand base h
    unfold is_safe_child_path realpath_or_empty
    rw [h]
    by_cases hc : (cand == "") = true <;> simp [hc]
  · intro fs cand base h
    unfold is_safe_child_path realpath_or_empty
    rw [h]
    by_cases hc : (cand == "") = true <;> by_cases hb : (base == "") = true <;>
      simp [hc, hb]
  · cases h : is_safe_child_path fs cand base
    · exact Or.inr rfl
    · exact Or.inl rfl

/-- Witness for C2: a filesystem whose realpath always raises rejects an
existing-looking candidate. -/
theorem C2_fail_closed_witness :
    is_safe_child_path noneFS ("/music/a.mp3") ("/music") = false :=
  C2_fail_closed.1 noneFS ("/music/a.mp3") ("/music") rfl

/-- C7: `/api/play` checks existence before containment: a nonexistent
path gives 404 (`notFound`) whatever the base directory, and an existing
path that fails the guard gives 403 (`forbidden`). -/
theorem C7_existence_before_containment :
    (∀ (fs : FS) (p base : String), fs.path_exists p = false →
        play_file fs (some p) base = PlayResult.notFound) ∧
    (∀ (fs : FS) (p base : String), p ≠ "" → fs.path_exists p = true →
        is_safe_child_path fs p base = false →
        play_file fs (some p) base = PlayResult.forbidden) := by
  constructor
  · intro fs p base h
    unfold play_file
    by_cases hp : (p == "") = true <;> simp [hp, h]
  · intro fs p base hp hex hguard
    unfold play_file
    simp [beq_eq_false_iff_ne.mpr hp, hex, hguard]

/-- Witness for C7: on a filesystem holding only `/music/a.mp3`, the
nonexistent `/etc/shadow` outside the root reports 404, while the
existing file under a foreign base reports 403. -/
theorem C7_existence_before_containment_witness :
    play_file oneFileFS (some "/etc/shadow") ("/music") = PlayResult.notFound ∧
    play_file oneFileFS (some "/music/a.mp3") ("/other") = PlayResult.forbidden :=
  ⟨C7_existence_before_containment.1 oneFileFS ("/etc/shadow") ("/music") rfl,
    C7_existence_before_containment.2 oneFileFS ("/music/a.mp3") ("/other")
      (by decide) (by decide) (by decide)⟩

/-- C10: with no media root configured (empty base directory),
`is_safe_child_path` rejects every candidate, so `/api/play`, favorites
add/remove and `/api/lyrics` all answer 403 even for paths that exist on
disk. -/
theorem C10_empty_base_forbidden :
    (∀ (fs : FS) (cand : String), is_safe_child_path fs cand ("") = false) ∧
    (∀ (fs : FS) (p : String), p ≠ "" → fs.path_exists p = true →
        play_file fs (some p) ("") = PlayResult.forbidden) ∧
    (∀ (fs : FS) (p : String) (favs : List String), p ≠ "" →
        manage_favorites fs .post (some p) ("") favs = FavResult.forbidden) ∧
    (∀ (fs : FS) (p : String) (favs : List String), p ≠ "" →
        manage_favorites fs .delete (some p) ("") favs = FavResult.forbidden) ∧
    (∀ (fs : FS) (p : String), p ≠ "" →
        get_lyrics fs (some p) ("") = LyricsResult.forbidden) := by
  have hguard : ∀ (fs : FS) (cand : String), is_safe_child_path fs cand ("") = false := by
    intro fs cand
    unfold is_safe_child_path
    simp
  refine ⟨hguard, ?_, ?_, ?_, ?_⟩
  · intro fs p hp hex
    unfold play_file
    simp [beq_eq_false_iff_ne.mpr hp, hex, hguard]
  · intro fs p favs hp
    unfold manage_favorites
    simp [beq_eq_false_iff_ne.mpr hp, hguard]
  · intro fs p favs hp
    unfold manage_favorites
    simp [beq_eq_false_iff_ne.mpr hp, hguard]
  · intro fs p hp
    unfold get_lyrics
    simp [beq_eq_false_iff_ne.mpr hp, hguard]

/-- Witness for C10: the one existing file of `oneFileFS` is still
rejected by every guarded route when the media root is unset. -/
theorem C10_empty_base_forbidden_witness :
    is_safe_child_path oneFileFS ("/music/a.mp3") ("") = false ∧
    play_file oneFileFS (some "/music/a.mp3") ("") = PlayResult.forbidden ∧
    manage_favorites oneFileFS .post (some "/music/a.mp3") ("") [] = FavResult.forbidden ∧
    manage_favorites oneFileFS .delete (some "/music/a.mp3") ("") [] = FavResult.forbidden ∧
    get_lyrics oneFileFS (some "/music/a.mp3") ("") = LyricsResult.forbidden :=
  ⟨C10_empty_base_forbidden.1 oneFileFS ("/music/a.mp3"),
    C10_empty_base_forbidden.2.1 oneFileFS ("/music/a.mp3") (by decide) (by decide),
    C10_empty_base_forbidden.2.2.1 oneFileFS ("/music/a.mp3") [] (by decide),
    C10_empty_base_forbidden.2.2.2.1 oneFileFS ("/music/a.mp3") [] (by decide),
    C10_empty_base_forbidden.2.2.2.2 oneFileFS ("/music/a.mp3") (by decide)⟩

/-! ## Lemmas about the scanner -/

theorem find?_first {α : Type} (p : α → Bool) (pre : List α) (i : α) (post : List α)
    (hpre : ∀ x ∈ pre, p x = false) (hi : p i = true) :
    List.find? p (pre ++ i :: post) = some i := by
  induction pre with
  | nil => simp [List.find?_cons, hi]
  | cons x xs ih =>
    rw [List.cons_append, List.find?_cons, hpre x (by simp)]
    exact ih (fun y hy => hpre y (by simp [hy]))

theorem mem_insertSorted (x a : String) (l : List String) :
    a ∈ insertSorted x l ↔ a = x ∨ a ∈ l := by
  induction l with
  | nil => simp [insertSorted]
  | cons y ys ih =>
    by_cases h : pyStrLt y x = true <;> simp [insertSorted, h, ih]
    tauto

theorem mem_pySort (a : String) (l : List String) : a ∈ pySort l ↔ a ∈ l := by
  induction l with
  | nil => simp [pySort]
  | cons x xs ih =>
    unfold pySort
    rw [mem_insertSorted, ih]
    simp

theorem str_ne_empty_data {s : String} (h : s ≠ "") : s.data ≠ [] := by
  intro hd
  exact h (String.ext hd)

theorem append_ne_empty_left {a b : String} (h : a ≠ "") : a ++ b ≠ "" := by
  intro hab
  have : (a ++ b).data = [] := by rw [hab]
  rw [String.data_append] at this
  exact str_ne_empty_data h (List.append_eq_nil.mp this).1

theorem isAbs_ne_empty {b : String} (h : isAbs b = true) : b ≠ "" := by
  intro hb
  rw [hb] at h
  exact absurd h (by decide)

theorem pathJoin_ne_empty (a b : String) (ha : a ≠ "") : pathJoin a b ≠ "" := by
  unfold pathJoin
  split
  · next h => exact isAbs_ne_empty h
  · split
    · exact append_ne_empty_left ha
    · exact append_ne_empty_left (append_ne_empty_left ha)

theorem classifyInto_audio_not_audio (b : Bucket) (f : String)
    (h : supported_audio.contains (pyLower (splitextStr f).2) = false) :
    (classifyInto b f).audio = b.audio := by
  simp only [classifyInto, h, Bool.false_eq_true, if_false]
  split
  · rfl
  · split <;> rfl

theorem foldl_classifyInto_audio (files : List String) (b : Bucket)
    (h : ∀ f ∈ files, supported_audio.contains (pyLower (splitextStr f).2) = false) :
    (files.foldl classifyInto b).audio = b.audio := by
  induction files generalizing b with
  | nil => rfl
  | cons f fs ih =>
    rw [List.foldl_cons, ih _ (fun x hx => h x (by simp [hx]))]
    exact classifyInto_audio_not_audio b f (h f (by simp))

theorem dictGet_mem {d : List (String × Bucket)} {k : String} {b : Bucket}
    (h : dictGet d k = some b) : ∃ p ∈ d, p.2 = b := by
  unfold dictGet at h
  cases hf : d.find? (fun p => p.1 == k) with
  | none => rw [hf] at h; simp at h
  | some p =>
    rw [hf] at h
    simp at h
    exact ⟨p, List.mem_of_find?_eq_some hf, h⟩

theorem processWalkEntry_audio_nil (d : List (String × Bucket))
    (entry : String × List String)
    (hd : ∀ e ∈ d, e.2.audio = [])
    (hf : ∀ f ∈ entry.2, supported_audio.contains (pyLower (splitextStr f).2) = false) :
    ∀ e ∈ processWalkEntry d entry, e.2.audio = [] := by
  unfold processWalkEntry
  intro e he
  set d1 := if (dictGet d entry.1).isSome then d else d ++ [(entry.1, emptyBucket)] with hd1
  have hd1nil : ∀ e ∈ d1, e.2.audio = [] := by
    rw [hd1]
    split
    · exact hd
    · intro x hx
      rcases List.mem_append.mp hx with h1 | h2
      · exact hd x h1
      · simp at h2
        rw [h2]
        rfl
  have hb0 : ((dictGet d1 entry.1).getD emptyBucket).audio = [] := by
    cases hg : dictGet d1 entry.1 with
    | none => rfl
    | some b =>
      obtain ⟨p, hp, hpb⟩ := dictGet_mem hg
      simpa [hpb] using hd1nil p hp
  have hnew : (entry.2.foldl classifyInto ((dictGet d1 entry.1).getD emptyBucket)).audio = [] := by
    rw [foldl_classifyInto_audio entry.2 _ hf]
    exact hb0
  unfold dictSet at he
  rcases List.mem_map.mp he with ⟨p, hp, hpe⟩
  by_cases hk : (p.1 == entry.1) = true
  · rw [if_pos hk] at hpe
    rw [← hpe]
    exact hnew
  · rw [if_neg hk] at hpe
    rw [← hpe]
    exact hd1nil p hp

theorem dirFiles_audio_nil (walk : List (String × List String))
    (h : ∀ e ∈ walk, ∀ f ∈ e.2, supported_audio.contains (pyLower (splitextStr f).2) = false) :
    ∀ e ∈ dirFiles walk, e.2.audio = [] := by
  unfold dirFiles
  suffices hgen : ∀ (w : List (String × List String)) (d : List (String × Bucket)),
      (∀ e ∈ d, e.2.audio = []) →
      (∀ e ∈ w, ∀ f ∈ e.2, supported_audio.contains (pyLower (splitextStr f).2) = false) →
      ∀ e ∈ w.foldl processWalkEntry d, e.2.audio = [] by
    exact hgen walk [] (by simp) h
  intro w
  induction w with
  | nil => intro d hd _ e he; exact hd e he
  | cons entry rest ih =>
    intro d hd hw e he
    rw [List.foldl_cons] at he
    exact ih (processWalkEntry d entry)
      (processWalkEntry_audio_nil d entry hd (hw entry (by simp)))
      (fun x hx => hw x (by simp [hx])) e he

theorem bucket_tracks_of_no_audio (env : MutagenEnv) (fs : FS) (root : String)
    (data : Bucket) (h : data.audio = []) : bucket_tracks env fs root data = [] := by
  unfold bucket_tracks
  rw [h]
  rfl

/-- C3: the scan returns an empty track list — never an error — when the
media root is unset (empty), when it does not exist, and when the walk
finds no file with a supported audio extension. -/
theorem C3_scan_degrades_to_empty :
    (∀ (env : MutagenEnv) (fs : FS), list_files env fs ("") = []) ∧
    (∀ (env : MutagenEnv) (fs : FS) (base_dir : String),
        fs.path_exists base_dir = false → list_files env fs base_dir = []) ∧
    (∀ (env : MutagenEnv) (fs : FS) (base_dir : String),
        (∀ e ∈ fs.walk base_dir, ∀ f ∈ e.2,
            supported_audio.contains (pyLower (splitextStr f).2) = false) →
        list_files env fs base_dir = []) := by
  refine ⟨fun env fs => rfl, ?_, ?_⟩
  · intro env fs base_dir h
    unfold list_files
    simp [h]
  · intro env fs base_dir h
    unfold list_files
    split
    · rfl
    · apply List.flatten_eq_nil_iff.mpr
      intro l hl
      rcases List.mem_map.mp hl with ⟨p, hp, hpe⟩
      rw [← hpe]
      exact bucket_tracks_of_no_audio env fs p.1 p.2 (dirFiles_audio_nil (fs.walk base_dir) h p hp)

/-- Witness for C3: a missing root and a root with only non-audio files
both scan to the empty list. -/
theorem C3_scan_degrades_to_empty_witness :
    list_files sampleEnv noneFS ("/gone") = [] :=
  C3_scan_degrades_to_empty.2.2 sampleEnv noneFS ("/gone") (by decide)

/-- C4: per directory bucket the default cover is the first
lexicographically sorted image whose lowercased name contains `cover`,
`folder` or `front`; with no keyword match it is the first sorted image;
with no images it is `null`. -/
theorem C4_default_cover_rule :
    ∀ (root : String) (imgs : List String), root ≠ "" →
      ((∀ (pre : List String) (i : String) (post : List String),
          pySort imgs = pre ++ i :: post → (∀ x ∈ pre, coverKw x = false) →
          coverKw i = true →
          default_cover root (pySort imgs) = some (pathJoin root i)) ∧
       (∀ (i : String) (rest : List String), pySort imgs = i :: rest →
          (∀ x ∈ pySort imgs, coverKw x = false) →
          default_cover root (pySort imgs) = some (pathJoin root i)) ∧
       (imgs = [] → default_cover root (pySort imgs) = none)) := by
  intro root imgs hroot
  refine ⟨?_, ?_, ?_⟩
  · intro pre i post hs hpre hi
    unfold default_cover
    rw [hs, find?_first coverKw pre i post hpre hi]
    cases hc : pre ++ i :: post with
    | nil => exact absurd hc (by simp)
    | cons a rest =>
      have hfalsy : isFalsyStrOpt (some (pathJoin root i)) = false := by
        unfold isFalsyStrOpt
        exact beq_eq_false_iff_ne.mpr (pathJoin_ne_empty root i hroot)
      simp [hfalsy]
  · intro i rest hs hnone
    unfold default_cover
    rw [hs, List.find?_eq_none.mpr (fun x hx => by
      rw [hnone x (by rw [hs]; exact hx)]
      simp)]
    rfl
  · intro h
    rw [h]
    rfl

/-- Witness for C4: `["b.jpg", "MyCover.png"]` sorted puts `MyCover.png`
first and it matches the keyword, so it is the default cover. -/
theorem C4_default_cover_rule_witness :
    default_cover ("/m") (pySort ["b.jpg", "MyCover.png"]) = some ("/m/MyCover.png") :=
  (C4_default_cover_rule ("/m") (["b.jpg", "MyCover.png"]) (by decide)).1
    [] ("MyCover.png") ["b.jpg"] (by decide) (by decide) (by decide)

/-- C5: the per-track lyric is the literal `<base>.lrc` sibling whenever
that file exists (winning over any differently-cased bucket entry),
otherwise the first case-insensitive base-name match of the bucket lyric
list, otherwise `null`. -/
theorem C5_lyric_resolution :
    ∀ (path_exists : String → Bool) (root base_name : String) (lrcs : List String),
      (path_exists (pathJoin root (base_name ++ ".lrc")) = true →
          resolve_lrc path_exists root base_name lrcs =
            some (pathJoin root (base_name ++ ".lrc"))) ∧
      (path_exists (pathJoin root (base_name ++ ".lrc")) = false →
          (∀ (pre : List String) (l : String) (post : List String),
              lrcs = pre ++ l :: post →
              (∀ x ∈ pre, lrcBaseMatches base_name x = false) →
              lrcBaseMatches base_name l = true →
              resolve_lrc path_exists root base_name lrcs = some (pathJoin root l)) ∧
          ((∀ x ∈ lrcs, lrcBaseMatches base_name x = false) →
              resolve_lrc path_exists root base_name lrcs = none)) := by
  intro path_exists root base_name lrcs
  refine ⟨?_, fun hex => ⟨?_, ?_⟩⟩
  · intro h
    simp only [resolve_lrc, h, if_true]
  · intro pre l post hl hpre hmatch
    simp only [resolve_lrc, hex, Bool.false_eq_true, if_false]
    rw [hl, find?_first (lrcBaseMatches base_name) pre l post hpre hmatch]
  · intro hnone
    simp only [resolve_lrc, hex, Bool.false_eq_true, if_false]
    rw [List.find?_eq_none.mpr (fun x hx => by rw [hnone x hx]; simp)]

/-- Witness for C5: with the literal sibling present on disk it wins over
a differently-cased bucket entry; `litFS.path_exists` is constantly
true. -/
theorem C5_lyric_resolution_witness :
    resolve_lrc litFS.path_exists ("/m") ("song") ["SONG.lrc"] = some ("/m/song.lrc") :=
  (C5_lyric_resolution litFS.path_exists ("/m") ("song") ["SONG.lrc"]).1 rfl

/-! ## Lemmas about the metadata reader -/

theorem pyOr_ne_empty (v : Option String) (dflt : String) (h : dflt ≠ "") :
    pyOr v dflt ≠ "" := by
  cases v with
  | none => exact h
  | some s =>
    by_cases hs : s = ""
    · simpa [pyOr, hs] using h
    · simpa [pyOr, beq_eq_false_iff_ne.mpr hs] using hs

theorem probe_artist_wf (a : AudioObj)
    (h1 : ∀ l, a.tags ("artist") = some l → l ≠ [])
    (h2 : ∀ l, a.tags ("author") = some l → l ≠ []) :
    probe_artist a = some (artistOf a) := by
  unfold probe_artist artistOf
  cases ha : a.tags ("artist") with
  | some l =>
    cases l with
    | nil => exact absurd rfl (h1 [] ha)
    | cons v vs => rfl
  | none =>
    cases a.tags ("TPE1") with
    | some _ => rfl
    | none =>
      cases hau : a.tags ("author") with
      | some l =>
        cases l with
        | nil => exact absurd rfl (h2 [] hau)
        | cons v vs => rfl
      | none => rfl

theorem probe_album_wf (a : AudioObj)
    (h3 : ∀ l, a.tags ("album") = some l → l ≠ [])
    (h4 : ∀ l, a.tags ("wm/albumtitle") = some l → l ≠ []) :
    probe_album a = some (albumOf a) := by
  unfold probe_album albumOf
  cases ha : a.tags ("album") with
  | some l =>
    cases l with
    | nil => exact absurd rfl (h3 [] ha)
    | cons v vs => rfl
  | none =>
    cases a.tags ("TALB") with
    | some _ => rfl
    | none =>
      cases hau : a.tags ("wm/albumtitle") with
      | some l =>
        cases l with
        | nil => exact absurd rfl (h4 [] hau)
        | cons v vs => rfl
      | none => rfl

/-- C6: `get_metadata` never raises (it is a total function whose two
components are always nonempty strings), any load failure or falsy tag
object yields the localized defaults, and on a loaded tag object the
artist is probed through `artist`, `TPE1`, `author` and the album
through `album`, `TALB`, `wm/albumtitle` — each field from its own keys
only, so the two resolve independently, with the localized default
filling any absent field. -/
theorem C6_metadata_reader :
    (∀ (env : MutagenEnv) (fp : String),
        (get_metadata env fp).1 ≠ "" ∧ (get_metadata env fp).2 ≠ "") ∧
    (∀ (env : MutagenEnv) (fp : String), getAudio env fp = none →
        get_metadata env fp = (unknown_artist, unknown_album)) ∧
    (∀ (env : MutagenEnv) (fp : String), getAudio env fp = some none →
        get_metadata env fp = (unknown_artist, unknown_album)) ∧
    (∀ (env : MutagenEnv) (fp : String) (a : AudioObj),
        getAudio env fp = some (some a) → a.truthy = false →
        get_metadata env fp = (unknown_artist, unknown_album)) ∧
    (∀ (env : MutagenEnv) (fp : String) (a : AudioObj),
        getAudio env fp = some (some a) → a.truthy = true → wellFormedTags a →
        get_metadata env fp =
          (pyOr (artistOf a) unknown_artist, pyOr (albumOf a) unknown_album)) := by
  refine ⟨?_, ?_, ?_, ?_, ?_⟩
  · intro env fp
    unfold get_metadata
    exact ⟨pyOr_ne_empty _ _ (by decide), pyOr_ne_empty _ _ (by decide)⟩
  · intro env fp h
    unfold get_metadata
    rw [h]
    rfl
  · intro env fp h
    unfold get_metadata
    rw [h]
    rfl
  · intro env fp a h ht
    unfold get_metadata
    rw [h]
    simp only [ht, Bool.false_eq_true, if_false]
    rfl
  · intro env fp a h ht hwf
    obtain ⟨h1, h2, h3, h4⟩ := hwf
    unfold get_metadata
    rw [h]
    simp only [ht, if_true]
    rw [probe_artist_wf a h1 h2, probe_album_wf a h3 h4]

/-- Witness for C6: a tag object carrying `artist`/`album` values under
the primary keys resolves both fields to them. -/
theorem C6_metadata_reader_witness :
    get_metadata sampleEnv ("/m/a.mp3") = ("Artist A", "Album B") := by
  have hwf : wellFormedTags sampleTags := by
    refine ⟨?_, ?_, ?_, ?_⟩ <;> intro l h <;> simp [sampleTags] at h <;> simp [← h]
  have h := C6_metadata_reader.2.2.2.2 sampleEnv ("/m/a.mp3") sampleTags rfl rfl hwf
  rw [h]
  rfl

/-! ## C8: the default cover with a keyword conflict -/

/-- C8 counterexample: the directory bucket `["zcover.jpg",
"afront.jpg"]` contains an image whose name contains `cover`, yet the
default cover resolves to `afront.jpg` (the `front` match sorts first),
not to the `cover` image the claim promises. -/
theorem C8_counterexample :
    containsSub ("cover") (pyLower ("zcover.jpg")) = true ∧
    pySort ["zcover.jpg", "afront.jpg"] = ["afront.jpg", "zcover.jpg"] ∧
    default_cover ("/m") (pySort ["zcover.jpg", "afront.jpg"]) = some ("/m/afront.jpg") ∧
    some ("/m/afront.jpg") ≠ some (pathJoin ("/m") ("zcover.jpg")) := by
  refine ⟨by decide, by decide, by decide, by decide⟩

theorem find?_eq_some_split {α : Type} (p : α → Bool) (l : List α) (a : α)
    (h : l.find? p = some a) :
    ∃ pre post, l = pre ++ a :: post ∧ ∀ x ∈ pre, p x = false := by
  induction l with
  | nil => simp at h
  | cons y ys ih =>
    by_cases hy : p y = true
    · rw [List.find?_cons_of_pos ys hy] at h
      obtain rfl := Option.some.inj h
      exact ⟨[], ys, rfl, by simp⟩
    · have hyf : p y = false := by simpa using hy
      rw [List.find?_cons_of_neg ys hy] at h
      obtain ⟨pre, post, hl, hpre⟩ := ih h
      refine ⟨y :: pre, post, by simp [hl], ?_⟩
      intro x hx
      rcases List.mem_cons.mp hx with rfl | hx2
      · exact hyf
      · exact hpre x hx2

/-- C8 amended: when some image of the directory contains `cover` (any
case), the default cover resolves to the FIRST image in sorted order
whose lowercased name matches one of the three keywords
`cover`/`folder`/`front` (no earlier sorted image matches any keyword) —
that first keyword match need not be the `cover`-named image itself. -/
theorem C8_amended_keyword_match :
    ∀ (root : String) (imgs : List String), root ≠ "" →
      (∃ x ∈ imgs, containsSub ("cover") (pyLower x) = true) →
      ∃ (pre : List String) (img : String) (post : List String),
        pySort imgs = pre ++ img :: post ∧
        (∀ x ∈ pre, coverKw x = false) ∧
        coverKw img = true ∧ img ∈ imgs ∧
        default_cover root (pySort imgs) = some (pathJoin root img) := by
  intro root imgs hroot hex
  obtain ⟨x, hx, hcov⟩ := hex
  have hxkw : coverKw x = true := by
    unfold coverKw
    rw [hcov]
    rfl
  have hsome : ((pySort imgs).find? coverKw).isSome :=
    List.find?_isSome.mpr ⟨x, (mem_pySort x imgs).mpr hx, hxkw⟩
  cases hf : (pySort imgs).find? coverKw with
  | none => rw [hf] at hsome; simp at hsome
  | some img =>
    obtain ⟨pre, post, hsplit, hpre⟩ := find?_eq_some_split coverKw (pySort imgs) img hf
    refine ⟨pre, img, post, hsplit, hpre, List.find?_some hf,
      (mem_pySort img imgs).mp (List.mem_of_find?_eq_some hf), ?_⟩
    have hfalsy : isFalsyStrOpt (some (pathJoin root img)) = false := by
      unfold isFalsyStrOpt
      exact beq_eq_false_iff_ne.mpr (pathJoin_ne_empty root img hroot)
    cases hs : pySort imgs with
    | nil => rw [hs] at hf; simp at hf
    | cons a rest =>
      simp only [default_cover]
      rw [hs] at hf
      rw [hf]
      simp [hfalsy]

/-- Witness for C8 amended: with a lone `zcover.jpg` the first sorted
keyword match is that image itself. -/
theorem C8_amended_keyword_match_witness :
    ∃ (pre : List String) (img : String) (post : List String),
      pySort ["zcover.jpg"] = pre ++ img :: post ∧
      (∀ x ∈ pre, coverKw x = false) ∧
      coverKw img = true ∧ img ∈ (["zcover.jpg"] : List String) ∧
      default_cover ("/m") (pySort ["zcover.jpg"]) = some (pathJoin ("/m") img) :=
  C8_amended_keyword_match ("/m") (["zcover.jpg"]) (by decide)
    ⟨"zcover.jpg", by decide, by decide⟩

/-! ## C9: the status count cap -/

theorem statusDirStep_total (files : List String) (t : Nat) (m : List (String × Nat)) :
    (files.foldl statusDirStep (t, m)).1 = t + files.length := by
  induction files generalizing t m with
  | nil => simp
  | cons f fs ih =>
    rw [List.foldl_cons,
      show statusDirStep (t, m) f = (t + 1, bumpExt m (pyLower (splitextStr f).2)) from rfl,
      ih]
    simp only [List.length_cons]
    omega

theorem status_walk_single (r : String) (files : List String) (m : List (String × Nat))
    (h : 20000 ≤ files.length) :
    (status_walk [(r, files)] 0 m).1 = files.length := by
  simp only [status_walk]
  have htot : (files.foldl statusDirStep (0, m)).1 = files.length := by
    rw [statusDirStep_total files 0 m]
    omega
  rw [if_pos (by rw [htot]; exact h)]
  exact htot

/-- C9 counterexample: under a walk holding one directory of 20001 files,
`total_files_scanned` is 20001, exceeding the claimed 20000 bound — the
break fires only between directories. -/
theorem C9_counterexample :
    (status_counts bigFS ("/m")).map Prod.fst = some 20001 ∧ ¬ (20001 ≤ 20000) := by
  constructor
  · have h2 := status_walk_single ("/m") (List.replicate 20001 ("a.mp3")) extInit
      (by rw [List.length_replicate]; omega)
    simp only [List.length_replicate] at h2
    rw [show status_counts bigFS ("/m") =
        some (status_walk [("/m", List.replicate 20001 ("a.mp3"))] 0 extInit) from rfl]
    rw [Option.map_some', h2]
  · decide

theorem le_maxFiles_aux (w : List (String × List String)) (b : Nat) :
    b ≤ w.foldl (fun acc e => max acc e.2.length) b := by
  induction w generalizing b with
  | nil => simp
  | cons e rest ih =>
    simp only [List.foldl_cons]
    exact le_trans (le_max_left _ _) (ih _)

theorem maxFiles_aux_mono (w : List (String × List String)) (b b' : Nat) (h : b ≤ b') :
    w.foldl (fun acc e => max acc e.2.length) b ≤ w.foldl (fun acc e => max acc e.2.length) b' := by
  induction w generalizing b b' with
  | nil => simpa using h
  | cons e rest ih =>
    simp only [List.foldl_cons]
    exact ih _ _ (max_le_max h (le_refl _))

theorem status_walk_bound (w : List (String × List String)) (total : Nat)
    (m : List (String × Nat)) (h : total < 20000) :
    (status_walk w total m).1 < 20000 + maxFiles w := by
  induction w generalizing total m with
  | nil => simpa [status_walk, maxFiles] using h
  | cons e rest ih =>
    obtain ⟨r, files⟩ := e
    simp only [status_walk]
    have htot : (files.foldl statusDirStep (total, m)).1 = total + files.length :=
      statusDirStep_total files total m
    by_cases hc : 20000 ≤ (files.foldl statusDirStep (total, m)).1
    · rw [if_pos hc, htot]
      have hmax : files.length ≤ maxFiles ((r, files) :: rest) := by
        unfold maxFiles
        simp only [List.foldl_cons]
        exact le_trans (le_max_right _ _) (le_maxFiles_aux rest _)
      omega
    · rw [if_neg hc]
      rw [htot] at hc
      have ih2 := ih ((files.foldl statusDirStep (total, m)).1)
        ((files.foldl statusDirStep (total, m)).2) (by rw [htot]; omega)
      have hmono : maxFiles rest ≤ maxFiles ((r, files) :: rest) := by
        unfold maxFiles
        simp only [List.foldl_cons]
        exact maxFiles_aux_mono rest 0 (max 0 files.length) (Nat.zero_le _)
      omega

/-- C9 amended: the status walk stops only at a directory boundary after
the running total reaches 20000, so `total_files_scanned` is strictly
below 20000 plus the largest single-directory file count of the walk —
but it is not bounded by 20000 itself. -/
theorem C9_amended_count_bound :
    ∀ (fs : FS) (base_dir : String) (total : Nat) (exts : List (String × Nat)),
      status_counts fs base_dir = some (total, exts) →
      total < 20000 + maxFiles (fs.walk base_dir) := by
  intro fs base_dir total exts h
  unfold status_counts at h
  split at h
  · have h2 : status_walk (fs.walk base_dir) 0 extInit = (total, exts) := by
      simpa using h
    have h3 := status_walk_bound (fs.walk base_dir) 0 extInit (by omega)
    rw [h2] at h3
    exact h3
  · simp at h

/-- Witness for C9 amended: a walk of one empty directory counts zero
files, within the amended bound. -/
theorem C9_amended_count_bound_witness :
    status_counts smallFS ("/m") = some (0, extInit) ∧
    0 < 20000 + maxFiles (smallFS.walk ("/m")) :=
  ⟨rfl, C9_amended_count_bound smallFS ("/m") 0 extInit rfl⟩

end Fnmusic
